import Mathlib

/-!
Verification of the `plugin-twitter-plus` engagement controller against its
natural-language specification.

The TypeScript sources are shallowly embedded here:

* `template-manager.ts` — template selection (`getTemplate`, `checkProbability`,
  `evaluateCondition`, `isTemplateOnCooldown`, `trackTemplateUse`);
* `post.ts` — `truncateToCompleteSentence`, and the `TwitterInteractionClient`
  engagement scheduler (`canReplyToUser`, `canReplyInThread`,
  `shouldProcessTweet`, `processTweetCandidate`, `processSingleTweet`,
  `handleTwitterInteractions`, `buildConversationThread`,
  `fetchAndFilterTweets`, `updateInteractionTracking`);
* `index.ts` — `setupSpecialInteractions`.

Conventions of the embedding:

* JavaScript `Map` objects become association lists (`List (String × β)`)
  with JS insertion-order semantics (`jsMapSet` updates in place, appends new
  keys at the end; `jsMapGet` finds the unique binding).
* Timestamps (`Date.now()`) are `Int` milliseconds; JS numbers used as
  probabilities and random draws are `ℚ`.  `Math.random()` results are passed
  in explicitly (one draw per call site), and the random array shuffle is
  passed in as a function together with a permutation hypothesis, so that the
  embedding is deterministic and executable.
* External effects (network fetches, the generation oracle, memory stores)
  are passed in as function parameters; a call that may throw is modelled
  with `Except Unit`.
* JS truthiness on the optional numeric/string fields is modelled explicitly
  (`jsFalsyNum`, `jsFalsyStr`): `undefined`, `0` and `""` are falsy.
-/

/-- JS `Map.get` / plain-object property lookup on an association list. -/
def jsMapGet {β : Type} (m : List (String × β)) (k : String) : Option β :=
  (m.find? (fun e => decide (e.1 = k))).map (fun e => e.2)

/-- JS `Map.set`: update the binding in place if the key is present,
otherwise append the new binding at the end (JS insertion order). -/
def jsMapSet {β : Type} : List (String × β) → String → β → List (String × β)
  | [], k, v => [(k, v)]
  | (k', v') :: rest, k, v =>
    if k' = k then (k', v) :: rest else (k', v') :: jsMapSet rest k v

/-- JS `Map.delete`: remove the (unique) binding for a key, if present. -/
def jsMapDelete {β : Type} : List (String × β) → String → List (String × β)
  | [], _ => []
  | (k', v') :: rest, k =>
    if k' = k then rest else (k', v') :: jsMapDelete rest k

/-- Truthiness of an optional JS number: `undefined` and `0` are falsy
(this is the `!x` test the source applies to probability fields). -/
def jsFalsyNum (x : Option ℚ) : Bool :=
  match x with
  | none => true
  | some q => q = 0

/-- Truthiness of an optional JS string: `undefined` and `""` are falsy. -/
def jsFalsyStr (x : Option String) : Bool :=
  match x with
  | none => true
  | some s => s = ""

/-! ## Template manager (`template-manager.ts`)

`TemplateVariation` keeps the fields the selection algorithm reads
(`description` and `metadata` are never consulted by `getTemplate` and are
omitted).  Condition values in the source are `string | number | RegExp`. -/

/-- Value of a template condition (`string | number | RegExp`). -/
inductive CondValue where
  | str (s : String)
  | num (q : ℚ)
  | regex (pattern : String)
deriving DecidableEq

/-- One entry of a template's `conditions` array.  The `operator` is kept as a
plain string because `evaluateCondition` receives `condition: any` and treats
unrecognized operators via its `default` branch. -/
structure Condition where
  field : String
  operator : String
  value : CondValue
deriving DecidableEq

/-- A dynamically-typed JS value, as stored in the `context` record that
conditions are evaluated against. -/
inductive JsValue where
  | undef
  | null
  | bool (b : Bool)
  | num (q : ℚ)
  | str (s : String)
  | obj (fields : List (String × JsValue))

/-- Decimal rendering of a JS number.  The embedding only renders integral
values faithfully (`String(3)` is `"3"`); non-integral rationals get a
placeholder rendering, which no verified claim depends on. -/
def qToString (q : ℚ) : String :=
  if q.den = 1 then toString q.num else toString q.num ++ "/" ++ toString q.den

/-- JS `String(value)` coercion. -/
def jsToString : JsValue → String
  | .undef => "undefined"
  | .null => "null"
  | .bool b => if b then "true" else "false"
  | .num q => qToString q
  | .str s => s
  | .obj _ => "[object Object]"

/-- Parses a nonempty all-digit string as a natural number. -/
def digitsToNat? (cs : List Char) : Option Nat :=
  if cs ≠ [] ∧ cs.all Char.isDigit then
    some (cs.foldl (fun acc c => acc * 10 + (c.toNat - 48)) 0)
  else none

/-- JS `Number(value)` coercion; `none` stands for `NaN`.  String inputs are
modelled for the empty string (`0`) and unsigned decimal integers; other
strings coerce to `NaN`. -/
def jsToNum : JsValue → Option ℚ
  | .undef => none
  | .null => some 0
  | .bool b => some (if b then 1 else 0)
  | .num q => some q
  | .str s => if s = "" then some 0 else (digitsToNat? s.toList).map (fun n => (n : ℚ))
  | .obj _ => none

/-- JS `String(conditionValue)`; a `RegExp` renders with surrounding slashes. -/
def condValueToString : CondValue → String
  | .str s => s
  | .num q => qToString q
  | .regex p => "/" ++ p ++ "/"

/-- JS `Number(conditionValue)`; a `RegExp` coerces to `NaN`. -/
def condValueToNum : CondValue → Option ℚ
  | .str s => if s = "" then some 0 else (digitsToNat? s.toList).map (fun n => (n : ℚ))
  | .num q => some q
  | .regex _ => none

/-- JS strict equality (`===`) between a context value and a condition value:
equal only when both are the same primitive type with the same value (a
`RegExp` literal is a fresh object, never `===` to a context value). -/
def jsStrictEq (v : JsValue) (c : CondValue) : Bool :=
  match v, c with
  | .str s, .str s' => s = s'
  | .num q, .num q' => q = q'
  | _, _ => false

/-- Substring test, JS `String.prototype.includes`. -/
def strContainsSub (s pat : String) : Bool :=
  decide (List.IsInfix pat.toList s.toList)

/-- Splits a character list at every occurrence of `c` (JS
`String.prototype.split` with a single-character separator). -/
def splitOnChar (c : Char) : List Char → List (List Char)
  | [] => [[]]
  | x :: xs =>
    match splitOnChar c xs with
    | [] => if x = c then [[], [x]] else [[x]]
    | r :: rs => if x = c then [] :: r :: rs else (x :: r) :: rs

/-- JS `path.split('.')`. -/
def jsSplitDots (path : String) : List String :=
  (splitOnChar '.' path.toList).map (fun cs => String.mk cs)

/-- Dotted-path lookup `getFieldValue` (`path.split('.').reduce((acc, part) =>
acc?.[part], obj)`): descend through object fields, yielding `undefined` as
soon as the accumulator is not an object with that property. -/
def getFieldValue (obj : JsValue) (path : String) : JsValue :=
  (jsSplitDots path).foldl
    (fun acc part =>
      match acc with
      | .obj fields => (jsMapGet fields part).getD .undef
      | _ => .undef)
    obj

/-- External regex oracle standing for `new RegExp(pattern).test(input)`. -/
structure JsEnv where
  regexTest : String → String → Bool

/-- `evaluateCondition` from `template-manager.ts`: dispatch on the operator
string; an unknown operator falls through to `false` (fail closed). -/
def evaluateCondition (env : JsEnv) (cond : Condition) (ctx : JsValue) : Bool :=
  let value := getFieldValue ctx cond.field
  if cond.operator = "contains" then
    strContainsSub (jsToString value) (condValueToString cond.value)
  else if cond.operator = "equals" then jsStrictEq value cond.value
  else if cond.operator = "greaterThan" then
    match jsToNum value, condValueToNum cond.value with
    | some a, some b => decide (a > b)
    | _, _ => false
  else if cond.operator = "lessThan" then
    match jsToNum value, condValueToNum cond.value with
    | some a, some b => decide (a < b)
    | _, _ => false
  else if cond.operator = "matches" then
    env.regexTest (condValueToString cond.value) (jsToString value)
  else false

/-- A template variation (the fields `getTemplate` reads). -/
structure TemplateVariation where
  name : String
  conditions : Option (List Condition)
  probability : Option ℚ
  template : String
deriving DecidableEq

/-- `checkProbability`: `!template.probability || Math.random() <
template.probability`.  Note that a probability of `0` is falsy in JS, so the
first disjunct already returns `true` for it. -/
def checkProbability (t : TemplateVariation) (rand : ℚ) : Bool :=
  match t.probability with
  | none => true
  | some p => if p = 0 then true else decide (rand < p)

/-- `isTemplateOnCooldown`: absent last-use (and, via JS truthiness, a
last-use timestamp of exactly `0`) means not on cooldown; otherwise the
template is on cooldown for 5 minutes. -/
def isTemplateOnCooldown (lastTemplateUse : List (String × Int)) (now : Int)
    (templateName : String) : Bool :=
  match jsMapGet lastTemplateUse templateName with
  | none => false
  | some lastUse =>
    if lastUse = 0 then false else decide (now - lastUse < 5 * 60 * 1000)

/-- Recency-descending order on cooldown entries, the comparator
`([, a], [, b]) => b - a` of `trackTemplateUse`. -/
def recencyGE (x y : String × Int) : Prop := y.2 ≤ x.2

instance : DecidableRel recencyGE := fun x y => inferInstanceAs (Decidable (y.2 ≤ x.2))

instance : IsTotal (String × Int) recencyGE := ⟨fun x y => le_total y.2 x.2⟩

instance : IsTrans (String × Int) recencyGE := ⟨fun _ _ _ h1 h2 => le_trans h2 h1⟩

/-- `trackTemplateUse`: stamp the template's name with the current time; if
the table then holds more than 100 entries, sort the entries most-recent
first and delete every entry from index 50 on (keeping the 50 most recent). -/
def trackTemplateUse (lastTemplateUse : List (String × Int)) (templateName : String)
    (now : Int) : List (String × Int) :=
  let m1 := jsMapSet lastTemplateUse templateName now
  if m1.length > 100 then
    let oldEntries := (List.insertionSort recencyGE m1).drop 50
    oldEntries.foldl (fun acc e => jsMapDelete acc e.1) m1
  else m1

/-- Eligibility predicate of the `getTemplate` filter for one template, given
the `Math.random()` draw its `checkProbability` call would consume: not on
cooldown, and (when a `conditions` array is present) every condition holds,
and the probability trial passes. -/
def templateEligible (env : JsEnv) (lastTemplateUse : List (String × Int)) (now : Int)
    (ctx : JsValue) (t : TemplateVariation) (rand : ℚ) : Bool :=
  if isTemplateOnCooldown lastTemplateUse now t.name then false
  else
    match t.conditions with
    | none => checkProbability t rand
    | some conds =>
      conds.all (fun c => evaluateCondition env c ctx) && checkProbability t rand

/-- `getTemplate` from `template-manager.ts`.  `catalog` is
`this.config.templates`; `rand i` is the `Math.random()` draw consumed for
the template at position `i` of the group; `shuffle` stands for
`shuffleArray` (a random permutation — theorems assume it permutes its
input).  Returns the selected variation together with the updated cooldown
table. -/
def getTemplate (env : JsEnv) (catalog : List (String × List TemplateVariation))
    (lastTemplateUse : List (String × Int)) (now : Int) (ctx : JsValue)
    (rand : Nat → ℚ) (shuffle : List TemplateVariation → List TemplateVariation)
    (ty : String) : Option TemplateVariation × List (String × Int) :=
  match jsMapGet catalog ty with
  | none => (none, lastTemplateUse)
  | some templates =>
    let eligibleTemplates :=
      (templates.enum.filter
        (fun p => templateEligible env lastTemplateUse now ctx p.2 (rand p.1))).map
        (fun p => p.2)
    if eligibleTemplates.length = 0 then (none, lastTemplateUse)
    else
      match (shuffle eligibleTemplates).head? with
      | none => (none, lastTemplateUse)
      | some selected => (some selected, trackTemplateUse lastTemplateUse selected.name now)

/-! ## Engagement scheduler (`post.ts`, `TwitterInteractionClient`)

Tweets keep the fields the scheduler reads.  Ids are the strings the platform
delivers; `BigInt(tweet.id)` becomes `idNum`. -/

/-- A candidate tweet (the fields the engagement scheduler reads). -/
structure Tweet where
  id : String
  userId : String
  conversationId : String
  inReplyToStatusId : Option String
deriving DecidableEq

/-- JS `BigInt(id)` on a decimal tweet id (ids are unsigned decimal strings;
a malformed id is mapped to `0`). -/
def idNum (s : String) : Nat :=
  (digitsToNat? s.toList).getD 0

/-- The `InteractionLimits` configuration snapshot. -/
structure InteractionLimits where
  maxRepliesPerThread : Nat
  maxRepliesPerUser : Nat
  minTimeBetweenReplies : Int
  checkIntervalMinutes : Nat
  replyProbability : ℚ

/-- Mutable state of `TwitterInteractionClient` (tracking maps) together with
the enhanced client's high-water mark `lastCheckedTweetId`. -/
structure InteractionState where
  recentReplies : List (String × Nat)
  threadReplies : List (String × Nat)
  lastReplyTime : List (String × Int)
  lastCheckedTweetId : Option Nat
deriving DecidableEq

/-- The empty tracking state. -/
def initialInteractionState : InteractionState :=
  { recentReplies := [], threadReplies := [], lastReplyTime := [],
    lastCheckedTweetId := none }

/-- `canReplyToUser`: below the per-user cap AND enough time since the last
recorded reply to this user (missing entries default to `0`). -/
def canReplyToUser (L : InteractionLimits) (st : InteractionState) (now : Int)
    (userId : String) : Bool :=
  let replyCount := (jsMapGet st.recentReplies userId).getD 0
  let lastReplyTime := (jsMapGet st.lastReplyTime userId).getD 0
  let timeSinceLastReply := now - lastReplyTime
  decide (replyCount < L.maxRepliesPerUser) &&
    decide (timeSinceLastReply ≥ L.minTimeBetweenReplies)

/-- `canReplyInThread`: below the per-thread cap (count-based only). -/
def canReplyInThread (L : InteractionLimits) (st : InteractionState)
    (conversationId : String) : Bool :=
  decide ((jsMapGet st.threadReplies conversationId).getD 0 < L.maxRepliesPerThread)

/-- `updateInteractionTracking`: increment both counters and stamp the user's
last-reply time. -/
def updateInteractionTracking (st : InteractionState) (now : Int)
    (userId conversationId : String) : InteractionState :=
  { st with
    recentReplies :=
      jsMapSet st.recentReplies userId ((jsMapGet st.recentReplies userId).getD 0 + 1),
    threadReplies :=
      jsMapSet st.threadReplies conversationId
        ((jsMapGet st.threadReplies conversationId).getD 0 + 1),
    lastReplyTime := jsMapSet st.lastReplyTime userId now }

/-- `shouldProcessTweet`: rate-limit checks first, then the `Math.random() >
replyProbability` rejection (the draw `rand` is that `Math.random()` value). -/
def shouldProcessTweet (L : InteractionLimits) (st : InteractionState) (now : Int)
    (t : Tweet) (rand : ℚ) : Bool :=
  if ¬ canReplyToUser L st now t.userId ∨ ¬ canReplyInThread L st t.conversationId then
    false
  else if rand > L.replyProbability then false
  else true

/-- Outcome of one candidate's external pipeline (`setupTweetContext`, thread
reconstruction and `client.handleTweet`): either some step threw, or the
pipeline completed with the returned `action` string. -/
def PipelineOracle : Type := Tweet → Except Unit String

/-- `processSingleTweet`: run the external pipeline; when it completes with
the action `"RESPOND"`, record the reply in the tracking maps.  A throw from
the pipeline propagates to the caller. -/
def processSingleTweet (oracle : PipelineOracle) (st : InteractionState) (now : Int)
    (t : Tweet) : Except Unit InteractionState :=
  match oracle t with
  | .error e => .error e
  | .ok action =>
    .ok (if action = "RESPOND" then updateInteractionTracking st now t.userId t.conversationId
         else st)

/-- The guard `!this.client.lastCheckedTweetId || BigInt(tweet.id) >
this.client.lastCheckedTweetId`: the mark is falsy (`undefined` or `0n`) or
the candidate's id is strictly above it. -/
def newerThanLastChecked (st : InteractionState) (t : Tweet) : Bool :=
  match st.lastCheckedTweetId with
  | none => true
  | some l => l = 0 ∨ idNum t.id > l

/-- `processTweetCandidate`: the candidate is considered only when
`newerThanLastChecked`; a rejection by `shouldProcessTweet` returns early
WITHOUT touching the mark; only a fully processed candidate advances
`lastCheckedTweetId`. -/
def processTweetCandidate (L : InteractionLimits) (oracle : PipelineOracle)
    (st : InteractionState) (now : Int) (t : Tweet) (rand : ℚ) :
    Except Unit InteractionState :=
  if newerThanLastChecked st t then
    if shouldProcessTweet L st now t rand = false then .ok st
    else
      match processSingleTweet oracle st now t with
      | .error e => .error e
      | .ok st1 => .ok { st1 with lastCheckedTweetId := some (idNum t.id) }
  else .ok st

/-- The candidate loop of `handleTwitterInteractions`: candidates are
processed in order; the first throw escapes the loop (carrying the state
reached so far), skipping all later candidates; the `Bool` records whether a
throw happened. -/
def processCandidates (L : InteractionLimits) (oracle : PipelineOracle)
    (now : Int) : InteractionState → List (Tweet × ℚ) → InteractionState × Bool
  | st, [] => (st, false)
  | st, (t, r) :: rest =>
    match processTweetCandidate L oracle st now t r with
    | .error _ => (st, true)
    | .ok st1 => processCandidates L oracle now st1 rest

/-- `handleTwitterInteractions`: the whole batch runs inside one
`try`/`catch`, so an escaping error is logged and swallowed — the tick always
returns a state (never an error). -/
def handleTwitterInteractions (L : InteractionLimits) (oracle : PipelineOracle)
    (now : Int) (st : InteractionState) (cands : List (Tweet × ℚ)) :
    InteractionState :=
  (processCandidates L oracle now st cands).1

/-- Input of one scheduler tick: the tick's clock and its fetched candidate
batch (each candidate paired with its `Math.random()` admission draw). -/
structure TickInput where
  now : Int
  cands : List (Tweet × ℚ)

/-- The engagement scheduler loop of `start`: each tick runs
`handleTwitterInteractions` and then unconditionally reschedules, so every
tick of the input stream is processed. -/
def runTicks (L : InteractionLimits) (oracle : PipelineOracle)
    (st : InteractionState) (ticks : List TickInput) : InteractionState :=
  ticks.foldl (fun s b => handleTwitterInteractions L oracle b.now s b.cands) st

/-! ## `fetchAndFilterTweets` -/

/-- A tweet object in the candidate array, paired with its reference
identity (heap address): JS `Set` membership is SameValueZero, which for
objects is reference identity, so the embedding must track references — two
structurally equal tweet objects with distinct references are distinct `Set`
elements. -/
abbrev RefTweet : Type := Nat × Tweet

/-- JS `new Set(array)` spread back into an array, for an array of objects:
keep the first occurrence of each object REFERENCE, in encounter order;
structurally equal objects under distinct references are all kept. -/
def jsSetDedup (tweets : List RefTweet) : List RefTweet :=
  go [] tweets
where
  /-- Worker carrying the references seen so far. -/
  go (seen : List Nat) : List RefTweet → List RefTweet
    | [] => []
    | p :: rest =>
      if p.1 ∈ seen then go seen rest else p :: go (p.1 :: seen) rest

/-- Lexicographic strict comparison of character lists by code point (the
order `localeCompare` induces on the plain digit strings used as tweet
ids). -/
def jsStrLtb : List Char → List Char → Bool
  | [], [] => false
  | [], _ :: _ => true
  | _ :: _, [] => false
  | a :: as, b :: bs => if a < b then true else if b < a then false else jsStrLtb as bs

/-- Ascending order of the id strings, the comparator
`(a, b) => a.id.localeCompare(b.id)` (modelled as code-point string order:
`a ≤ b` iff not `b < a`). -/
def tweetIdLE (a b : Tweet) : Prop := jsStrLtb b.id.toList a.id.toList = false

/-- `jsStrLtb` is asymmetric. -/
theorem jsStrLtb_asymm :
    ∀ as bs : List Char, jsStrLtb as bs = true → jsStrLtb bs as = false := by
  intro as
  induction as with
  | nil =>
    intro bs h
    cases bs with
    | nil => simp [jsStrLtb] at h
    | cons b bs => simp [jsStrLtb]
  | cons a as ih =>
    intro bs h
    cases bs with
    | nil => simp [jsStrLtb] at h
    | cons b bs =>
      by_cases hab : a < b
      · have hba : ¬ b < a := lt_asymm hab
        simp [jsStrLtb, hba, hab]
      · by_cases hba : b < a
        · simp [jsStrLtb, hab, hba] at h
        · simp only [jsStrLtb, if_neg hab, if_neg hba] at h
          simp only [jsStrLtb, if_neg hba, if_neg hab]
          exact ih bs h

/-- `jsStrLtb` is transitive. -/
theorem jsStrLtb_trans :
    ∀ as bs cs : List Char, jsStrLtb as bs = true → jsStrLtb bs cs = true →
      jsStrLtb as cs = true := by
  intro as
  induction as with
  | nil =>
    intro bs cs h1 h2
    cases bs with
    | nil => simp [jsStrLtb] at h1
    | cons b bs =>
      cases cs with
      | nil => simp [jsStrLtb] at h2
      | cons c cs => simp [jsStrLtb]
  | cons a as ih =>
    intro bs cs h1 h2
    cases bs with
    | nil => simp [jsStrLtb] at h1
    | cons b bs =>
      cases cs with
      | nil => simp [jsStrLtb] at h2
      | cons c cs =>
        by_cases hab : a < b
        · by_cases hbc : b < c
          · have hac : a < c := lt_trans hab hbc
            simp [jsStrLtb, hac]
          · by_cases hcb : c < b
            · simp [jsStrLtb, hbc, hcb] at h2
            · have hbc2 : b = c := le_antisymm (not_lt.mp hcb) (not_lt.mp hbc)
              subst hbc2
              simp [jsStrLtb, hab]
        · by_cases hba : b < a
          · simp [jsStrLtb, hab, hba] at h1
          · have hab2 : a = b := le_antisymm (not_lt.mp hba) (not_lt.mp hab)
            subst hab2
            simp only [jsStrLtb, if_neg hab, if_neg hba] at h1
            by_cases hac : a < c
            · simp [jsStrLtb, hac]
            · by_cases hca : c < a
              · simp [jsStrLtb, hac, hca] at h2
              · simp only [jsStrLtb, if_neg hac, if_neg hca] at h2 ⊢
                exact ih bs cs h1 h2

/-- Two character lists neither of which is below the other are equal. -/
theorem jsStrLtb_eq_of_not_lt :
    ∀ as bs : List Char, jsStrLtb as bs = false → jsStrLtb bs as = false →
      as = bs := by
  intro as
  induction as with
  | nil =>
    intro bs h1 h2
    cases bs with
    | nil => rfl
    | cons b bs => simp [jsStrLtb] at h1
  | cons a as ih =>
    intro bs h1 h2
    cases bs with
    | nil => simp [jsStrLtb] at h2
    | cons b bs =>
      by_cases hab : a < b
      · simp [jsStrLtb, hab] at h1
      · by_cases hba : b < a
        · simp [jsStrLtb, hba] at h2
        · have hab2 : a = b := le_antisymm (not_lt.mp hba) (not_lt.mp hab)
          subst hab2
          simp only [jsStrLtb, if_neg hab, if_neg hba] at h1 h2
          rw [ih bs h1 h2]

instance : DecidableRel tweetIdLE :=
  fun a b => inferInstanceAs (Decidable (jsStrLtb b.id.toList a.id.toList = false))

instance : IsTotal Tweet tweetIdLE := by
  refine ⟨fun a b => ?_⟩
  unfold tweetIdLE
  by_cases h : jsStrLtb b.id.toList a.id.toList = true
  · exact Or.inr (jsStrLtb_asymm _ _ h)
  · exact Or.inl (by simpa using h)

instance : IsTrans Tweet tweetIdLE := by
  refine ⟨fun a b c h1 h2 => ?_⟩
  unfold tweetIdLE at h1 h2 ⊢
  by_cases hca : jsStrLtb c.id.toList a.id.toList = true
  · exfalso
    by_cases hbc : jsStrLtb b.id.toList c.id.toList = true
    · have hba := jsStrLtb_trans _ _ _ hbc hca
      rw [h1] at hba
      exact Bool.false_ne_true hba
    · have heq : b.id.toList = c.id.toList :=
        jsStrLtb_eq_of_not_lt _ _ (by simpa using hbc) h2
      rw [← heq] at hca
      rw [h1] at hca
      exact Bool.false_ne_true hca
  · simpa using hca

/-- The sort comparator of `fetchAndFilterTweets`, lifted to referenced
tweet objects (it reads only the payload's id string). -/
def refTweetIdLE (a b : RefTweet) : Prop := tweetIdLE a.2 b.2

instance : DecidableRel refTweetIdLE :=
  fun a b => inferInstanceAs (Decidable (tweetIdLE a.2 b.2))

instance : IsTotal RefTweet refTweetIdLE :=
  ⟨fun a b => IsTotal.total (r := tweetIdLE) a.2 b.2⟩

instance : IsTrans RefTweet refTweetIdLE :=
  ⟨fun a b c h1 h2 => IsTrans.trans (r := tweetIdLE) a.2 b.2 c.2 h1 h2⟩

/-- `fetchAndFilterTweets` (after the fetch itself): de-duplicate the batch
of tweet objects by reference (`[...new Set(...)]`), sort it ascending by id
string, and drop self-authored tweets. -/
def fetchAndFilterTweets (profileId : String) (tweetCandidates : List RefTweet) :
    List RefTweet :=
  ((List.insertionSort refTweetIdLE (jsSetDedup tweetCandidates)).filter
    (fun p => p.2.userId ≠ profileId))

/-! ## `buildConversationThread`

The parent lookup `client.getTweet` may throw (`Except.error`) or return
nothing; both truncate the chain.  The source bounds the recursion by `depth
>= maxReplies`; the embedding carries the remaining depth `maxReplies -
depth` as structural fuel. -/

/-- Parent lookup oracle: `.error` models a thrown fetch, `.ok none` a
missing parent. -/
def ParentLookup : Type := String → Except Unit (Option Tweet)

/-- The recursive `processThread` worker: stop at the depth limit or on an
already-visited id; otherwise record the tweet (prepending it to the thread,
`thread.unshift`), then follow `inReplyToStatusId` when the parent fetch
succeeds.  The memory upsert of `processThreadTweet` is an external
idempotent write and is not represented. -/
def processThread (lookup : ParentLookup) :
    Nat → Tweet → List String → List Tweet → List String × List Tweet
  | 0, _, visited, thread => (visited, thread)
  | fuel + 1, t, visited, thread =>
    if t.id ∈ visited then (visited, thread)
    else
      let visited1 := t.id :: visited
      let thread1 := t :: thread
      match t.inReplyToStatusId with
      | none => (visited1, thread1)
      | some pid =>
        match lookup pid with
        | .error _ => (visited1, thread1)
        | .ok none => (visited1, thread1)
        | .ok (some parent) => processThread lookup fuel parent visited1 thread1

/-- `buildConversationThread`: reconstruct the backward chain from `tweet`,
bounded by `maxReplies` (whose default at the call site is
`limits.maxRepliesPerThread`), returning it oldest-first. -/
def buildConversationThread (lookup : ParentLookup) (tweet : Tweet)
    (maxReplies : Nat) : List Tweet :=
  (processThread lookup maxReplies tweet [] []).2

/-! ## `truncateToCompleteSentence` (`post.ts`) -/

/-- The hard tweet length limit. -/
def MAX_TWEET_LENGTH : Nat := 280

/-- JS whitespace for `String.prototype.trim` (the subset exercised here). -/
def jsIsWs (c : Char) : Bool :=
  c = ' ' ∨ c = '\t' ∨ c = '\n' ∨ c = '\r'

/-- JS `trim`: strip whitespace from both ends. -/
def jsTrim (cs : List Char) : List Char :=
  ((cs.dropWhile jsIsWs).reverse.dropWhile jsIsWs).reverse

/-- JS `lastIndexOf(char, fromIdx)`: search backward from `fromIdx` for the
greatest index holding `c`, or `-1` when there is none. -/
def jsLastIndexOf (cs : List Char) (c : Char) (fromIdx : Nat) : Int :=
  match (List.range (fromIdx + 1)).reverse.find? (fun i => cs.get? i = some c) with
  | none => -1
  | some i => (i : Int)

/-- JS `slice(0, e)` for a possibly negative end index: a negative `e` counts
from the end of the string (so `slice(0, -1)` drops only the last element). -/
def jsSlice0 (cs : List Char) (e : Int) : List Char :=
  if e < 0 then cs.take ((cs.length : Int) + e).toNat else cs.take e.toNat

/-- `truncateToCompleteSentence`: short text is returned unchanged; long text
is cut at the last period before the limit, else at the last space before the
limit plus an ellipsis (note: when no space exists, `lastIndexOf` yields `-1`
and `slice(0, -1)` keeps all but the final character), else hard-cut with an
ellipsis. -/
def truncateToCompleteSentence (text : List Char) : List Char :=
  if text.length ≤ MAX_TWEET_LENGTH then text
  else
    let truncatedAtPeriod := jsSlice0 text (jsLastIndexOf text '.' MAX_TWEET_LENGTH + 1)
    if (jsTrim truncatedAtPeriod).length > 0 then jsTrim truncatedAtPeriod
    else
      let truncatedAtSpace := jsSlice0 text (jsLastIndexOf text ' ' MAX_TWEET_LENGTH)
      if (jsTrim truncatedAtSpace).length > 0 then jsTrim truncatedAtSpace ++ "...".toList
      else jsTrim (text.take (MAX_TWEET_LENGTH - 3)) ++ "...".toList

/-! ## `setupSpecialInteractions` (`index.ts`)

The special-interactions JSON is parsed without schema validation, so every
field may be absent; the fields are therefore optional here.  `Option` does
not distinguish JS `null` from `undefined`; both are falsy, like the values
the validation loop tests for. -/

/-- A special-interaction entry as read from the configuration file. -/
structure SpecialInteraction where
  handle : Option String
  topics : Option (List String)
  templates : Option (List String)
  probability : Option ℚ
  cooldown : Option Int
deriving DecidableEq

/-- JS truthiness of an optional array value: only a missing (or null) field
is falsy — an empty array is truthy. -/
def jsFalsyArr (x : Option (List String)) : Bool :=
  x.isNone

/-- The validation loop of `setupSpecialInteractions`: an entry with a falsy
`handle`, `templates` or `probability` is deleted from the mapping; the
surviving entries are handed unchanged to both the post and the interaction
client. -/
def setupSpecialInteractions (interactions : List (String × SpecialInteraction)) :
    List (String × SpecialInteraction) :=
  interactions.filter
    (fun e =>
      ¬ (jsFalsyStr e.2.handle ∨ jsFalsyArr e.2.templates ∨ jsFalsyNum e.2.probability))

/-- Modelled from the spec (for comparison with the code): the drop rule as
claim C10 words it — dropped iff the probability is `0` or the `handle` or
`templates` field is missing. -/
def claimDroppedSpecial (i : SpecialInteraction) : Prop :=
  i.probability = some 0 ∨ i.handle = none ∨ i.templates = none

instance (i : SpecialInteraction) : Decidable (claimDroppedSpecial i) := by
  unfold claimDroppedSpecial; infer_instance

/-! ## Shared concrete fixtures -/

/-- A regex oracle that never matches (concrete instantiations never reach
the `matches` operator). -/
def envNoRegex : JsEnv := ⟨fun _ _ => false⟩

/-- A template with `probability: 0` and no conditions. -/
def tProb0 : TemplateVariation :=
  { name := "zero", conditions := none, probability := some 0, template := "body0" }

/-- A template with `probability: 1` and no conditions. -/
def tProb1 : TemplateVariation :=
  { name := "one", conditions := none, probability := some 1, template := "body1" }

/-- Limits with `replyProbability` 0 (every probability draw rejects). -/
def limitsReplyNever : InteractionLimits :=
  { maxRepliesPerThread := 2, maxRepliesPerUser := 5, minTimeBetweenReplies := 300000,
    checkIntervalMinutes := 3, replyProbability := 0 }

/-- Limits with `replyProbability` 1 (no probability draw rejects). -/
def limitsReplyAlways : InteractionLimits :=
  { maxRepliesPerThread := 2, maxRepliesPerUser := 5, minTimeBetweenReplies := 300000,
    checkIntervalMinutes := 3, replyProbability := 1 }

/-- Limits with a per-user cap of one reply. -/
def limitsOneReply : InteractionLimits :=
  { maxRepliesPerThread := 2, maxRepliesPerUser := 1, minTimeBetweenReplies := 0,
    checkIntervalMinutes := 3, replyProbability := 1 }

/-- A candidate tweet with id 5 and no parent. -/
def tweetA : Tweet :=
  { id := "5", userId := "u1", conversationId := "c1", inReplyToStatusId := none }

/-- A candidate tweet with id 1. -/
def tweet1 : Tweet :=
  { id := "1", userId := "u1", conversationId := "c1", inReplyToStatusId := none }

/-- A candidate tweet with id 2. -/
def tweet2 : Tweet :=
  { id := "2", userId := "u2", conversationId := "c2", inReplyToStatusId := none }

/-- A pipeline oracle that answers `RESPOND` for every tweet. -/
def oracleRespond : PipelineOracle := fun _ => Except.ok "RESPOND"

/-- A pipeline oracle that throws for tweet id 1 and answers `RESPOND`
otherwise. -/
def oracleFailFirst : PipelineOracle :=
  fun t => if t.id = "1" then Except.error () else Except.ok "RESPOND"

/-! ## C5 — `canReplyToUser` -/

/-- Replay a sequence of recorded replies `(userId, conversationId, now)`
through `updateInteractionTracking`. -/
def applyRecords (st : InteractionState) (ops : List (String × String × Int)) :
    InteractionState :=
  ops.foldl (fun s o => updateInteractionTracking s o.2.2 o.1 o.2.1) st

/-- C5: `canReplyToUser` is true iff the recorded reply count is strictly
below `maxRepliesPerUser` AND the time since the last recorded reply is at
least `minTimeBetweenReplies`; consequently, after any sequence of recorded
replies that brings the count to the cap or above, it is false for every
clock value. -/
theorem canReplyToUser_spec (L : InteractionLimits) (st : InteractionState)
    (now : Int) (u : String) :
    (canReplyToUser L st now u = true ↔
      ((jsMapGet st.recentReplies u).getD 0 < L.maxRepliesPerUser ∧
        now - (jsMapGet st.lastReplyTime u).getD 0 ≥ L.minTimeBetweenReplies))
    ∧ ∀ ops : List (String × String × Int),
        L.maxRepliesPerUser ≤ (jsMapGet (applyRecords st ops).recentReplies u).getD 0 →
        ∀ now2 : Int, canReplyToUser L (applyRecords st ops) now2 u = false := by
  constructor
  · simp [canReplyToUser]
  · intro ops hcap now2
    simp only [canReplyToUser, Bool.and_eq_false_iff, decide_eq_false_iff_not]
    exact Or.inl (Nat.not_lt.mpr hcap)

/-- Witness for C5 at a concrete input: a single recorded reply saturates a
per-user cap of one, and `canReplyToUser` is false long after. -/
theorem canReplyToUser_spec_witness :
    canReplyToUser limitsOneReply (applyRecords initialInteractionState [("u", "c", 0)])
      999999999 "u" = false :=
  (canReplyToUser_spec limitsOneReply initialInteractionState 999999999 "u").2
    [("u", "c", 0)] (by decide) 999999999

/-! ## C10 — `setupSpecialInteractions` -/

/-- A special-interaction entry whose `handle` is present but the empty
string (falsy in JS, but not "missing"). -/
def emptyHandleInteraction : SpecialInteraction :=
  { handle := some "", topics := some [], templates := some ["t"],
    probability := some 1, cooldown := none }

/-- A special-interaction entry whose `probability` field is absent (the
drop rule claimed for it mentions only a probability of `0`). -/
def noProbInteraction : SpecialInteraction :=
  { handle := some "bob", topics := some [], templates := some ["t"],
    probability := none, cooldown := none }

/-- C10 counterexample: two entries that are outside the claimed drop set
(probability 0, or missing handle/templates) are nevertheless dropped by
`setupSpecialInteractions` — one with a present-but-empty handle, one with a
missing probability. -/
theorem setupSpecialInteractions_drops_claimed_survivors :
    setupSpecialInteractions
      [("k1", emptyHandleInteraction), ("k2", noProbInteraction)] = []
    ∧ ¬ claimDroppedSpecial emptyHandleInteraction
    ∧ ¬ claimDroppedSpecial noProbInteraction := by
  refine ⟨by decide, by decide, by decide⟩

/-- C10 amended: an entry survives `setupSpecialInteractions` (and is then
registered unchanged with both clients) iff it is in the input and its
`handle` is present and nonempty, its `templates` field is present, and its
`probability` is present and nonzero — the JS falsy test, which also drops
empty-string handles and missing probabilities. -/
theorem setupSpecialInteractions_spec
    (interactions : List (String × SpecialInteraction)) (k : String)
    (i : SpecialInteraction) :
    (k, i) ∈ setupSpecialInteractions interactions ↔
      ((k, i) ∈ interactions
        ∧ (∃ h, i.handle = some h ∧ h ≠ "")
        ∧ (∃ ts, i.templates = some ts)
        ∧ (∃ p, i.probability = some p ∧ p ≠ 0)) := by
  rw [setupSpecialInteractions, List.mem_filter]
  refine and_congr_right (fun _ => ?_)
  rcases i with ⟨h, tp, ts, pr, cd⟩
  rcases h with _ | h <;> rcases ts with _ | ts <;> rcases pr with _ | pr <;>
    simp [jsFalsyStr, jsFalsyArr, jsFalsyNum]

/-! ## C1 / C6 — `getTemplate` -/

/-- Head membership helper. -/
theorem head?_mem_list {α : Type} {l : List α} {a : α} (h : l.head? = some a) :
    a ∈ l := by
  cases l with
  | nil => simp at h
  | cons b l => simp at h; simp [h]

/-- Unfolding `getTemplate` once the catalog lookup is known. -/
theorem getTemplate_eq_of_lookup (env : JsEnv)
    (catalog : List (String × List TemplateVariation)) (m : List (String × Int))
    (now : Int) (ctx : JsValue) (rand : Nat → ℚ)
    (shuffle : List TemplateVariation → List TemplateVariation) (ty : String)
    (ts : List TemplateVariation) (hcat : jsMapGet catalog ty = some ts) :
    getTemplate env catalog m now ctx rand shuffle ty =
      (let eligibleTemplates :=
        (ts.enum.filter
          (fun p => templateEligible env m now ctx p.2 (rand p.1))).map (fun p => p.2)
       if eligibleTemplates.length = 0 then (none, m)
       else
         match (shuffle eligibleTemplates).head? with
         | none => (none, m)
         | some selected => (some selected, trackTemplateUse m selected.name now)) := by
  unfold getTemplate
  rw [hcat]

/-- A template kept by the eligibility filter with a `conditions` array has
all its conditions satisfied. -/
theorem templateEligible_conditions (env : JsEnv) (m : List (String × Int))
    (now : Int) (ctx : JsValue) (t : TemplateVariation) (r : ℚ)
    (conds : List Condition) (h : templateEligible env m now ctx t r = true)
    (hc : t.conditions = some conds) :
    conds.all (fun c => evaluateCondition env c ctx) = true := by
  unfold templateEligible at h
  by_cases hcool : isTemplateOnCooldown m now t.name
  · simp [hcool] at h
  · rw [if_neg hcool, hc] at h
    rw [Bool.and_eq_true] at h
    exact h.1

/-- Any selected template passed the eligibility filter for the draw at its
position in the group. -/
theorem getTemplate_selected_eligible (env : JsEnv)
    (catalog : List (String × List TemplateVariation)) (m : List (String × Int))
    (now : Int) (ctx : JsValue) (rand : Nat → ℚ)
    (shuffle : List TemplateVariation → List TemplateVariation) (ty : String)
    (t : TemplateVariation) (mOut : List (String × Int))
    (hperm : ∀ l, (shuffle l).Perm l)
    (h : getTemplate env catalog m now ctx rand shuffle ty = (some t, mOut)) :
    ∃ i, templateEligible env m now ctx t (rand i) = true := by
  cases hcat : jsMapGet catalog ty with
  | none => unfold getTemplate at h; rw [hcat] at h; simp at h
  | some ts =>
    rw [getTemplate_eq_of_lookup env catalog m now ctx rand shuffle ty ts hcat] at h
    set elig :=
      (ts.enum.filter (fun p => templateEligible env m now ctx p.2 (rand p.1))).map
        (fun p => p.2) with helig
    by_cases hlen : elig.length = 0
    · rw [if_pos hlen] at h
      simp at h
    · rw [if_neg hlen] at h
      cases hhead : (shuffle elig).head? with
      | none => rw [hhead] at h; simp at h
      | some sel =>
        rw [hhead] at h
        have hsel : sel = t := by
          have := congrArg Prod.fst h
          simpa using this
        subst hsel
        have hmem : sel ∈ shuffle elig := head?_mem_list hhead
        have hmem2 : sel ∈ elig := (hperm elig).mem_iff.mp hmem
        rw [helig] at hmem2
        rcases List.mem_map.mp hmem2 with ⟨p, hp, hpt⟩
        rcases List.mem_filter.mp hp with ⟨_, hpe⟩
        exact ⟨p.1, by rw [← hpt]; exact hpe⟩

/-- A condition requiring `context.mood === "good"`. -/
def condFieldEq : Condition :=
  { field := "mood", operator := "equals", value := CondValue.str "good" }

/-- A template guarded by `condFieldEq`, no probability. -/
def tCond : TemplateVariation :=
  { name := "cond", conditions := some [condFieldEq], probability := none,
    template := "bodyC" }

/-- A context in which `condFieldEq` holds. -/
def ctxGood : JsValue := JsValue.obj [("mood", JsValue.str "good")]

/-- C6: `getTemplate` never returns a template with a `conditions` array
unless every condition evaluates to true against the context under
`evaluateCondition` (whose unknown-operator branch, stated as the second
conjunct, fails closed). -/
theorem getTemplate_conditions_hold (env : JsEnv)
    (catalog : List (String × List TemplateVariation)) (m : List (String × Int))
    (now : Int) (ctx : JsValue) (rand : Nat → ℚ)
    (shuffle : List TemplateVariation → List TemplateVariation) (ty : String)
    (t : TemplateVariation) (mOut : List (String × Int)) (conds : List Condition)
    (hperm : ∀ l, (shuffle l).Perm l)
    (hget : getTemplate env catalog m now ctx rand shuffle ty = (some t, mOut))
    (hconds : t.conditions = some conds) :
    conds.all (fun c => evaluateCondition env c ctx) = true
    ∧ ∀ (cond : Condition) (ctx2 : JsValue),
        cond.operator ≠ "contains" → cond.operator ≠ "equals" →
        cond.operator ≠ "greaterThan" → cond.operator ≠ "lessThan" →
        cond.operator ≠ "matches" → evaluateCondition env cond ctx2 = false := by
  constructor
  · rcases getTemplate_selected_eligible env catalog m now ctx rand shuffle ty t mOut
      hperm hget with ⟨i, he⟩
    exact templateEligible_conditions env m now ctx t (rand i) conds he hconds
  · intro cond ctx2 h1 h2 h3 h4 h5
    simp [evaluateCondition, h1, h2, h3, h4, h5]

/-- Witness for C6 at a concrete input: a one-template group guarded by an
`equals` condition that holds in the supplied context. -/
theorem getTemplate_conditions_hold_witness :
    [condFieldEq].all (fun c => evaluateCondition envNoRegex c ctxGood) = true :=
  (getTemplate_conditions_hold envNoRegex [("g", [tCond])] [] 0 ctxGood
    (fun _ => 0) id "g" tCond [("cond", 0)] [condFieldEq]
    (fun l => List.Perm.refl l) (by decide) rfl).1

/-- C1 counterexample: in a two-template group with probabilities 0 and 1,
no conditions and no cooldowns, `getTemplate` can return the probability-0
template (JS `!0` is `true`, so `checkProbability` passes it
unconditionally); the claim that selection always yields the probability-1
template is false. -/
theorem getTemplate_returns_probability_zero_template :
    (getTemplate envNoRegex [("g", [tProb0, tProb1])] [] 0 JsValue.null
      (fun _ => 0) id "g").1 = some tProb0
    ∧ tProb0.probability = some 0 ∧ tProb1.probability = some 1 := by
  refine ⟨by decide, rfl, rfl⟩

/-- C1 amended: a template whose probability is absent OR equal to 0 always
passes the Bernoulli eligibility trial; hence in the two-template scenario
(probabilities 0 and 1, no conditions, neither on cooldown) both templates
are eligible and `getTemplate` returns one of the two — not necessarily the
probability-1 one. -/
theorem getTemplate_prob_zero_amended :
    (∀ (t : TemplateVariation) (r : ℚ),
        (t.probability = none ∨ t.probability = some 0) →
        checkProbability t r = true)
    ∧ ∀ (env : JsEnv) (catalog : List (String × List TemplateVariation))
        (m : List (String × Int)) (now : Int) (ctx : JsValue) (rand : Nat → ℚ)
        (shuffle : List TemplateVariation → List TemplateVariation) (ty : String)
        (t0 t1 : TemplateVariation),
        (∀ l, (shuffle l).Perm l) →
        jsMapGet catalog ty = some [t0, t1] →
        t0.conditions = none → t1.conditions = none →
        t0.probability = some 0 → t1.probability = some 1 →
        isTemplateOnCooldown m now t0.name = false →
        isTemplateOnCooldown m now t1.name = false →
        (∀ i, 0 ≤ rand i ∧ rand i < 1) →
        ∃ sel, (getTemplate env catalog m now ctx rand shuffle ty).1 = some sel
          ∧ (sel = t0 ∨ sel = t1) := by
  constructor
  · intro t r h
    rcases h with h | h <;> simp [checkProbability, h]
  · intro env catalog m now ctx rand shuffle ty t0 t1 hperm hcat hc0 hc1 hp0 hp1
      hw0 hw1 hr
    have e0 : templateEligible env m now ctx t0 (rand 0) = true := by
      simp [templateEligible, hw0, hc0, checkProbability, hp0]
    have e1 : templateEligible env m now ctx t1 (rand 1) = true := by
      have hlt : rand 1 < 1 := (hr 1).2
      simp [templateEligible, hw1, hc1, checkProbability, hp1, hlt]
    rw [getTemplate_eq_of_lookup env catalog m now ctx rand shuffle ty [t0, t1] hcat]
    have hfil : (([t0, t1] : List TemplateVariation).enum.filter
        (fun p => templateEligible env m now ctx p.2 (rand p.1))) =
        [(0, t0), (1, t1)] := by
      show List.filter _ ((0, t0) :: (1, t1) :: []) = _
      simp [List.filter_cons, e0, e1]
    simp only [hfil, List.map]
    rw [if_neg (by simp)]
    cases hs : shuffle [t0, t1] with
    | nil =>
      have hlen := (hperm [t0, t1]).length_eq
      rw [hs] at hlen
      simp at hlen
    | cons sel rest =>
      refine ⟨sel, rfl, ?_⟩
      · have hm : sel ∈ shuffle [t0, t1] := by
          rw [hs]; exact List.mem_cons_self sel rest
        have := (hperm [t0, t1]).mem_iff.mp hm
        simpa using this

/-- Witness for the C1 amended theorem at a concrete input (shuffle =
reverse, all draws 0): the scenario returns one of the two templates. -/
theorem getTemplate_prob_zero_amended_witness :
    ∃ sel, (getTemplate envNoRegex [("g", [tProb0, tProb1])] [] 0 JsValue.null
        (fun _ => 0) (fun l => l.reverse) "g").1 = some sel
      ∧ (sel = tProb0 ∨ sel = tProb1) :=
  getTemplate_prob_zero_amended.2 envNoRegex [("g", [tProb0, tProb1])] [] 0
    JsValue.null (fun _ => 0) (fun l => l.reverse) "g" tProb0 tProb1
    (fun l => List.reverse_perm l) (by decide) rfl rfl rfl rfl rfl rfl
    (fun _ => ⟨le_refl 0, by norm_num⟩)

/-! ## C9 — `trackTemplateUse` bounds the cooldown table -/

/-- Keys after a `jsMapSet`: unchanged when the key was present, otherwise
the new key is appended. -/
theorem jsMapSet_keys {β : Type} (m : List (String × β)) (k : String) (v : β) :
    (jsMapSet m k v).map Prod.fst =
      if k ∈ m.map Prod.fst then m.map Prod.fst else m.map Prod.fst ++ [k] := by
  induction m with
  | nil => simp [jsMapSet]
  | cons e m ih =>
    rcases e with ⟨k', v'⟩
    by_cases hk : k' = k
    · subst hk
      simp [jsMapSet]
    · simp only [jsMapSet, if_neg hk, List.map_cons, ih]
      by_cases hmem : k ∈ m.map Prod.fst
      · rw [if_pos hmem, if_pos (by simp [hmem])]
      · rw [if_neg hmem, if_neg (by simp [hmem, Ne.symm hk])]
        simp

/-- `jsMapSet` adds at most one entry. -/
theorem jsMapSet_length_le {β : Type} (m : List (String × β)) (k : String) (v : β) :
    (jsMapSet m k v).length ≤ m.length + 1 := by
  have h := congrArg List.length (jsMapSet_keys m k v)
  simp only [List.length_map] at h
  rw [h]
  split <;> simp

/-- `jsMapSet` preserves distinctness of keys. -/
theorem jsMapSet_keys_nodup {β : Type} (m : List (String × β)) (k : String) (v : β)
    (hnd : (m.map Prod.fst).Nodup) : ((jsMapSet m k v).map Prod.fst).Nodup := by
  rw [jsMapSet_keys]
  by_cases hmem : k ∈ m.map Prod.fst
  · rwa [if_pos hmem]
  · rw [if_neg hmem]
    simp [List.nodup_append, hnd, hmem]

/-- Keys after a `jsMapDelete` are the original keys with `k` erased. -/
theorem jsMapDelete_keys {β : Type} (m : List (String × β)) (k : String) :
    (jsMapDelete m k).map Prod.fst = (m.map Prod.fst).erase k := by
  induction m with
  | nil => simp [jsMapDelete]
  | cons e m ih =>
    rcases e with ⟨k', v'⟩
    by_cases hk : k' = k
    · subst hk
      simp [jsMapDelete, List.erase_cons_head]
    · simp only [jsMapDelete, if_neg hk, List.map_cons, ih]
      rw [List.erase_cons_tail]
      simp [hk]

/-- Deleting a present key shrinks the map by exactly one entry. -/
theorem jsMapDelete_length {β : Type} (m : List (String × β)) (k : String)
    (hk : k ∈ m.map Prod.fst) : (jsMapDelete m k).length = m.length - 1 := by
  have h := congrArg List.length (jsMapDelete_keys m k)
  simp only [List.length_map] at h
  rw [h, List.length_erase_of_mem hk, List.length_map]

/-- Folding `jsMapDelete` over distinct present keys removes exactly one
entry per key. -/
theorem foldl_jsMapDelete_length {β : Type} :
    ∀ (ks : List String) (m : List (String × β)),
      (m.map Prod.fst).Nodup → ks.Nodup → (∀ k ∈ ks, k ∈ m.map Prod.fst) →
      (ks.foldl (fun acc k => jsMapDelete acc k) m).length = m.length - ks.length := by
  intro ks
  induction ks with
  | nil => intro m _ _ _; simp
  | cons k ks ih =>
    intro m hnd hks hmem
    have hk : k ∈ m.map Prod.fst := hmem k (List.mem_cons_self k ks)
    have hpos : 0 < m.length := by
      have : m.map Prod.fst ≠ [] := List.ne_nil_of_mem hk
      have : m ≠ [] := by
        intro hnil; rw [hnil] at this; simp at this
      exact List.length_pos.mpr this
    have hnd2 : ((jsMapDelete m k).map Prod.fst).Nodup := by
      rw [jsMapDelete_keys]; exact hnd.erase k
    have hkstail : ks.Nodup := (List.nodup_cons.mp hks).2
    have hknotin : k ∉ ks := (List.nodup_cons.mp hks).1
    have hmem2 : ∀ k2 ∈ ks, k2 ∈ (jsMapDelete m k).map Prod.fst := by
      intro k2 hk2
      rw [jsMapDelete_keys]
      have hne : k2 ≠ k := fun he => hknotin (he ▸ hk2)
      exact (List.mem_erase_of_ne hne).mpr (hmem k2 (List.mem_cons_of_mem k hk2))
    have := ih (jsMapDelete m k) hnd2 hkstail hmem2
    simp only [List.foldl_cons]
    rw [this, jsMapDelete_length m k hk, List.length_cons]
    omega

/-- Unfolds `trackTemplateUse` with the key-deletion fold expressed over the
dropped keys. -/
theorem trackTemplateUse_eq (m : List (String × Int)) (templateName : String)
    (now : Int) :
    trackTemplateUse m templateName now =
      (if (jsMapSet m templateName now).length > 100 then
        (((List.insertionSort recencyGE (jsMapSet m templateName now)).drop 50).map
            Prod.fst).foldl (fun acc k => jsMapDelete acc k)
          (jsMapSet m templateName now)
       else jsMapSet m templateName now) := by
  rw [trackTemplateUse, List.foldl_map]

/-- C9: assuming distinct tracked names, every call to `trackTemplateUse`
keeps the table within the cap of 100; and whenever the stamped table
exceeds 100 entries, eviction leaves exactly the 50 most recent entries. -/
theorem trackTemplateUse_bounded (m : List (String × Int)) (templateName : String)
    (now : Int) (hnd : (m.map Prod.fst).Nodup) :
    (m.length ≤ 100 → (trackTemplateUse m templateName now).length ≤ 100)
    ∧ ((jsMapSet m templateName now).length > 100 →
        (trackTemplateUse m templateName now).length = 50) := by
  have hnd1 : ((jsMapSet m templateName now).map Prod.fst).Nodup :=
    jsMapSet_keys_nodup m templateName now hnd
  by_cases h : (jsMapSet m templateName now).length > 100
  · have hperm : (List.insertionSort recencyGE (jsMapSet m templateName now)).Perm
        (jsMapSet m templateName now) := List.perm_insertionSort _ _
    have hkeysperm :
        ((List.insertionSort recencyGE (jsMapSet m templateName now)).map
          Prod.fst).Perm ((jsMapSet m templateName now).map Prod.fst) :=
      hperm.map _
    have hsortnodup :
        ((List.insertionSort recencyGE (jsMapSet m templateName now)).map
          Prod.fst).Nodup := hkeysperm.nodup_iff.mpr hnd1
    have hsubkeys :
        List.Sublist
          (((List.insertionSort recencyGE (jsMapSet m templateName now)).drop 50).map
            Prod.fst)
          ((List.insertionSort recencyGE (jsMapSet m templateName now)).map
            Prod.fst) :=
      (List.drop_sublist 50 _).map Prod.fst
    have hdnodup :
        (((List.insertionSort recencyGE (jsMapSet m templateName now)).drop 50).map
          Prod.fst).Nodup := hsortnodup.sublist hsubkeys
    have hdmem : ∀ k ∈ ((List.insertionSort recencyGE
          (jsMapSet m templateName now)).drop 50).map Prod.fst,
        k ∈ (jsMapSet m templateName now).map Prod.fst := by
      intro k hk
      exact hkeysperm.mem_iff.mp (hsubkeys.subset hk)
    have hdlen :
        (((List.insertionSort recencyGE (jsMapSet m templateName now)).drop 50).map
          Prod.fst).length = (jsMapSet m templateName now).length - 50 := by
      rw [List.length_map, List.length_drop, hperm.length_eq]
    have hfinal : (trackTemplateUse m templateName now).length = 50 := by
      rw [trackTemplateUse_eq, if_pos h,
        foldl_jsMapDelete_length _ _ hnd1 hdnodup hdmem, hdlen]
      omega
    exact ⟨fun _ => by omega, fun _ => hfinal⟩
  · have heq : trackTemplateUse m templateName now = jsMapSet m templateName now := by
      rw [trackTemplateUse_eq, if_neg h]
    refine ⟨fun _ => ?_, fun h2 => absurd h2 h⟩
    rw [heq]
    omega

/-- Witness for C9 at a concrete input. -/
theorem trackTemplateUse_bounded_witness :
    (trackTemplateUse [] "a" 5).length ≤ 100 :=
  (trackTemplateUse_bounded [] "a" 5 (by simp)).1 (by decide)

/-! ## C2 — the high-water mark does not advance on rejection -/

/-- C2 counterexample: a fresh candidate (id above the falsy mark) rejected
by the probability filter leaves the state — in particular
`lastCheckedTweetId` — completely unchanged, so it will be reconsidered on a
later tick; the claimed unconditional advance is false. -/
theorem processTweetCandidate_rejected_no_advance :
    processTweetCandidate limitsReplyNever oracleRespond initialInteractionState
      1000000 tweetA 1 = Except.ok initialInteractionState
    ∧ newerThanLastChecked initialInteractionState tweetA = true
    ∧ shouldProcessTweet limitsReplyNever initialInteractionState 1000000 tweetA 1 = false
    ∧ initialInteractionState.lastCheckedTweetId ≠ some (idNum tweetA.id) := by
  refine ⟨rfl, rfl, rfl, by decide⟩

/-- C2 amended: for a considered candidate, the high-water mark advances to
its id exactly when the filters admit it and its pipeline completes without
throwing; a rejected candidate leaves the whole state unchanged, and a
thrown pipeline propagates without advancing the mark. -/
theorem processTweetCandidate_mark_spec (L : InteractionLimits)
    (oracle : PipelineOracle) (st : InteractionState) (now : Int) (t : Tweet)
    (rand : ℚ) (hnew : newerThanLastChecked st t = true) :
    (shouldProcessTweet L st now t rand = false →
      processTweetCandidate L oracle st now t rand = Except.ok st)
    ∧ (∀ action : String, shouldProcessTweet L st now t rand = true →
        oracle t = Except.ok action →
        ∃ st1, processTweetCandidate L oracle st now t rand = Except.ok st1
          ∧ st1.lastCheckedTweetId = some (idNum t.id))
    ∧ (shouldProcessTweet L st now t rand = true → oracle t = Except.error () →
        processTweetCandidate L oracle st now t rand = Except.error ()) := by
  refine ⟨?_, ?_, ?_⟩
  · intro h
    simp [processTweetCandidate, hnew, h]
  · intro action hsp hok
    simp only [processTweetCandidate, hnew, if_true, hsp, Bool.true_eq_false,
      if_false, processSingleTweet, hok]
    exact ⟨_, rfl, rfl⟩
  · intro hsp herr
    simp [processTweetCandidate, hnew, hsp, processSingleTweet, herr]

/-- Witness for the C2 amended theorem: an admitted candidate whose pipeline
answers `RESPOND` advances the mark to its id. -/
theorem processTweetCandidate_mark_spec_witness :
    ∃ st1, processTweetCandidate limitsReplyAlways oracleRespond
        initialInteractionState 1000000 tweetA 0 = Except.ok st1
      ∧ st1.lastCheckedTweetId = some (idNum tweetA.id) :=
  (processTweetCandidate_mark_spec limitsReplyAlways oracleRespond
    initialInteractionState 1000000 tweetA 0 rfl).2.1 "RESPOND" rfl rfl

/-! ## C3 — error isolation -/

/-- C3 counterexample: with two admissible candidates in one batch, a throw
in the first candidate's pipeline makes the tick return with the second
candidate untouched (state unchanged), although the same second candidate is
fully processed when it is the whole batch — per-candidate isolation does
not hold. -/
theorem handleTwitterInteractions_batch_aborted :
    handleTwitterInteractions limitsReplyAlways oracleFailFirst 1000000
      initialInteractionState [(tweet1, 0), (tweet2, 0)] = initialInteractionState
    ∧ (handleTwitterInteractions limitsReplyAlways oracleFailFirst 1000000
        initialInteractionState [(tweet2, 0)]).lastCheckedTweetId = some 2 := by
  refine ⟨rfl, rfl⟩

/-- C3 amended: an error in one candidate's pipeline is caught at the batch
level: every candidate after it in the same batch is skipped (the batch
result is as if the batch ended at the failing candidate), prior candidates'
effects are kept, and the tick always returns normally so the scheduler goes
on to the next tick of the stream. -/
theorem handleTwitterInteractions_error_isolation :
    (∀ (L : InteractionLimits) (oracle : PipelineOracle) (now : Int)
        (st : InteractionState) (pre : List (Tweet × ℚ)) (c : Tweet) (r : ℚ)
        (rest : List (Tweet × ℚ)),
        ((processCandidates L oracle now st pre).2 = true ∨
          processTweetCandidate L oracle (processCandidates L oracle now st pre).1
            now c r = Except.error ()) →
        handleTwitterInteractions L oracle now st (pre ++ (c, r) :: rest) =
          handleTwitterInteractions L oracle now st (pre ++ [(c, r)]))
    ∧ (∀ (L : InteractionLimits) (oracle : PipelineOracle) (st : InteractionState)
        (b : TickInput) (bs : List TickInput),
        runTicks L oracle st (b :: bs) =
          runTicks L oracle (handleTwitterInteractions L oracle b.now st b.cands) bs) := by
  constructor
  · intro L oracle now st pre c r rest
    induction pre generalizing st with
    | nil =>
      intro h
      rcases h with h | h
      · simp [processCandidates] at h
      · simp only [List.nil_append]
        simp only [processCandidates] at h
        simp [handleTwitterInteractions, processCandidates, h]
    | cons hd tl ih =>
      rcases hd with ⟨t, q⟩
      intro h
      cases hstep : processTweetCandidate L oracle st now t q with
      | error e =>
        simp only [List.cons_append]
        simp [handleTwitterInteractions, processCandidates, hstep]
      | ok st1 =>
        have hred : processCandidates L oracle now st ((t, q) :: tl) =
            processCandidates L oracle now st1 tl := by
          simp [processCandidates, hstep]
        rw [hred] at h
        have hgoal : ∀ X, handleTwitterInteractions L oracle now st ((t, q) :: X) =
            handleTwitterInteractions L oracle now st1 X := by
          intro X
          simp [handleTwitterInteractions, processCandidates, hstep]
        rw [List.cons_append, hgoal, List.cons_append, hgoal]
        exact ih st1 h
  · intro L oracle st b bs
    rfl

/-- Witness for the C3 amended theorem: the erroring first candidate makes
the two-candidate batch equivalent to the one-candidate batch. -/
theorem handleTwitterInteractions_error_isolation_witness :
    handleTwitterInteractions limitsReplyAlways oracleFailFirst 1000000
        initialInteractionState ([] ++ (tweet1, 0) :: [(tweet2, 0)]) =
      handleTwitterInteractions limitsReplyAlways oracleFailFirst 1000000
        initialInteractionState ([] ++ [(tweet1, 0)]) :=
  handleTwitterInteractions_error_isolation.1 limitsReplyAlways oracleFailFirst
    1000000 initialInteractionState [] tweet1 0 [(tweet2, 0)] (Or.inr rfl)

/-! ## C7 — `buildConversationThread` -/

/-- Shape of the `processThread` accumulator: the traversal only prepends
newly visited tweets (at most one per remaining depth unit) in front of the
incoming thread. -/
theorem processThread_shape (lookup : ParentLookup) :
    ∀ (fuel : Nat) (t : Tweet) (visited : List String) (thread : List Tweet),
      ∃ pre : List Tweet,
        (processThread lookup fuel t visited thread).2 = pre ++ thread
        ∧ pre.length ≤ fuel := by
  intro fuel
  induction fuel with
  | zero => intro t visited thread; exact ⟨[], rfl, by simp⟩
  | succ n ih =>
    intro t visited thread
    by_cases hv : t.id ∈ visited
    · exact ⟨[], by simp [processThread, hv], by simp⟩
    · cases hp : t.inReplyToStatusId with
      | none =>
        refine ⟨[t], ?_, by simp⟩
        simp [processThread, hv, hp]
      | some pid =>
        cases hl : lookup pid with
        | error e =>
          refine ⟨[t], ?_, by simp⟩
          simp [processThread, hv, hp, hl]
        | ok po =>
          cases po with
          | none =>
            refine ⟨[t], ?_, by simp⟩
            simp [processThread, hv, hp, hl]
          | some parent =>
            rcases ih parent (t.id :: visited) (t :: thread) with ⟨pre, hpre, hlen⟩
            refine ⟨pre ++ [t], ?_, by simp; omega⟩
            simp [processThread, hv, hp, hl, hpre]

/-- With depth budget left and an unvisited leaf, the leaf is recorded first
and therefore ends up last in the reconstructed (oldest-first) chain. -/
theorem processThread_leaf_last (lookup : ParentLookup) (n : Nat) (t : Tweet)
    (visited : List String) (thread : List Tweet) (hv : t.id ∉ visited) :
    ∃ pre : List Tweet,
      (processThread lookup (n + 1) t visited thread).2 = pre ++ t :: thread := by
  cases hp : t.inReplyToStatusId with
  | none => exact ⟨[], by simp [processThread, hv, hp]⟩
  | some pid =>
    cases hl : lookup pid with
    | error e => exact ⟨[], by simp [processThread, hv, hp, hl]⟩
    | ok po =>
      cases po with
      | none => exact ⟨[], by simp [processThread, hv, hp, hl]⟩
      | some parent =>
        rcases processThread_shape lookup n parent (t.id :: visited) (t :: thread)
          with ⟨pre, hpre, _⟩
        exact ⟨pre, by simp [processThread, hv, hp, hl, hpre]⟩

/-- C7: for every parent-lookup oracle (including cyclic or throwing ones)
the reconstruction is a total function whose chain holds at most `maxReplies`
tweets; with any depth budget, the leaf is the chain's last (newest) element;
a leaf with no parent reference, a parent fetch that throws or returns
nothing, and a self-referential parent all yield the single-element chain. -/
theorem buildConversationThread_spec (lookup : ParentLookup) (t : Tweet)
    (maxReplies : Nat) :
    (buildConversationThread lookup t maxReplies).length ≤ maxReplies
    ∧ (1 ≤ maxReplies →
        (buildConversationThread lookup t maxReplies).getLast? = some t
        ∧ (t.inReplyToStatusId = none →
            buildConversationThread lookup t maxReplies = [t])
        ∧ (∀ pid, t.inReplyToStatusId = some pid →
            (lookup pid = Except.error () ∨ lookup pid = Except.ok none) →
            buildConversationThread lookup t maxReplies = [t])
        ∧ (∀ pid parent, t.inReplyToStatusId = some pid →
            lookup pid = Except.ok (some parent) → parent.id = t.id →
            buildConversationThread lookup t maxReplies = [t])) := by
  constructor
  · rcases processThread_shape lookup maxReplies t [] [] with ⟨pre, hpre, hlen⟩
    unfold buildConversationThread
    rw [hpre]
    simpa using hlen
  · intro hpos
    obtain ⟨n, rfl⟩ : ∃ n, maxReplies = n + 1 :=
      ⟨maxReplies - 1, by omega⟩
    refine ⟨?_, ?_, ?_, ?_⟩
    · rcases processThread_leaf_last lookup n t [] [] (by simp) with ⟨pre, hpre⟩
      unfold buildConversationThread
      rw [hpre]
      simp
    · intro hp
      unfold buildConversationThread
      simp [processThread, hp]
    · intro pid hp hl
      unfold buildConversationThread
      rcases hl with hl | hl <;> simp [processThread, hp, hl]
    · intro pid parent hp hl hid
      unfold buildConversationThread
      simp [processThread, hp, hl]
      cases n with
      | zero => simp [processThread]
      | succ n2 => simp [processThread, hid]

/-- Witness for C7 at a concrete input: a parentless leaf with depth budget 3
yields the single-element chain of length 1 ≤ 3. -/
theorem buildConversationThread_spec_witness :
    (buildConversationThread (fun _ => Except.ok none) tweetA 3).length ≤ 3
    ∧ buildConversationThread (fun _ => Except.ok none) tweetA 3 = [tweetA] :=
  ⟨(buildConversationThread_spec (fun _ => Except.ok none) tweetA 3).1,
    (((buildConversationThread_spec (fun _ => Except.ok none) tweetA 3).2
      (by decide)).2.1) rfl⟩

/-! ## C8 — `fetchAndFilterTweets` -/

/-- The dedup worker only returns elements of its input. -/
theorem jsSetDedup_go_subset :
    ∀ (l : List RefTweet) (seen : List Nat) (p : RefTweet),
      p ∈ jsSetDedup.go seen l → p ∈ l := by
  intro l
  induction l with
  | nil => intro seen p hp; simp [jsSetDedup.go] at hp
  | cons a l ih =>
    intro seen p hp
    by_cases h : a.1 ∈ seen
    · rw [show jsSetDedup.go seen (a :: l) = jsSetDedup.go seen l from by
        simp [jsSetDedup.go, h]] at hp
      exact List.mem_cons_of_mem a (ih seen p hp)
    · rw [show jsSetDedup.go seen (a :: l) = a :: jsSetDedup.go (a.1 :: seen) l from by
        simp [jsSetDedup.go, h]] at hp
      rcases List.mem_cons.mp hp with hp | hp
      · exact hp ▸ List.mem_cons_self a l
      · exact List.mem_cons_of_mem a (ih (a.1 :: seen) p hp)

/-- No reference returned by the dedup worker was already seen. -/
theorem jsSetDedup_go_refs_not_seen :
    ∀ (l : List RefTweet) (seen : List Nat) (r : Nat),
      r ∈ (jsSetDedup.go seen l).map Prod.fst → r ∉ seen := by
  intro l
  induction l with
  | nil => intro seen r hr; simp [jsSetDedup.go] at hr
  | cons a l ih =>
    intro seen r hr
    by_cases h : a.1 ∈ seen
    · rw [show jsSetDedup.go seen (a :: l) = jsSetDedup.go seen l from by
        simp [jsSetDedup.go, h]] at hr
      exact ih seen r hr
    · rw [show jsSetDedup.go seen (a :: l) = a :: jsSetDedup.go (a.1 :: seen) l from by
        simp [jsSetDedup.go, h]] at hr
      rcases List.mem_cons.mp hr with hr | hr
      · exact hr ▸ h
      · intro hrs
        exact ih (a.1 :: seen) r hr (List.mem_cons_of_mem a.1 hrs)

/-- The dedup worker keeps each reference at most once. -/
theorem jsSetDedup_go_refs_nodup :
    ∀ (l : List RefTweet) (seen : List Nat),
      ((jsSetDedup.go seen l).map Prod.fst).Nodup := by
  intro l
  induction l with
  | nil => intro seen; simp [jsSetDedup.go]
  | cons a l ih =>
    intro seen
    by_cases h : a.1 ∈ seen
    · rw [show jsSetDedup.go seen (a :: l) = jsSetDedup.go seen l from by
        simp [jsSetDedup.go, h]]
      exact ih seen
    · rw [show jsSetDedup.go seen (a :: l) = a :: jsSetDedup.go (a.1 :: seen) l from by
        simp [jsSetDedup.go, h]]
      rw [List.map_cons, List.nodup_cons]
      refine ⟨?_, ih (a.1 :: seen)⟩
      intro hmem
      exact jsSetDedup_go_refs_not_seen l (a.1 :: seen) a.1 hmem
        (List.mem_cons_self a.1 seen)

/-- When every pair of the input agrees on payloads for equal references
(the real heap: a reference determines its object), an unseen input pair
survives the dedup worker. -/
theorem jsSetDedup_go_mem_of_wf :
    ∀ (l : List RefTweet) (seen : List Nat) (p : RefTweet),
      p ∈ l → p.1 ∉ seen → (∀ q ∈ l, q.1 = p.1 → q.2 = p.2) →
      p ∈ jsSetDedup.go seen l := by
  intro l
  induction l with
  | nil => intro seen p hp; simp at hp
  | cons a l ih =>
    intro seen p hp hps hwf
    by_cases h : a.1 ∈ seen
    · rw [show jsSetDedup.go seen (a :: l) = jsSetDedup.go seen l from by
        simp [jsSetDedup.go, h]]
      rcases List.mem_cons.mp hp with hp | hp
      · exact absurd (hp ▸ h) hps
      · exact ih seen p hp hps (fun q hq => hwf q (List.mem_cons_of_mem a hq))
    · rw [show jsSetDedup.go seen (a :: l) = a :: jsSetDedup.go (a.1 :: seen) l from by
        simp [jsSetDedup.go, h]]
      by_cases hap : a.1 = p.1
      · have hpay : a.2 = p.2 := hwf a (List.mem_cons_self a l) hap
        have : a = p := Prod.ext hap hpay
        exact this ▸ List.mem_cons_self a _
      · rcases List.mem_cons.mp hp with hp | hp
        · exact absurd (congrArg Prod.fst hp.symm) hap
        · refine List.mem_cons_of_mem a (ih (a.1 :: seen) p hp ?_
            (fun q hq => hwf q (List.mem_cons_of_mem a hq)))
          intro hmem
          rcases List.mem_cons.mp hmem with hmem | hmem
          · exact hap hmem.symm
          · exact hps hmem

/-- `jsSetDedup` only returns elements of its input. -/
theorem jsSetDedup_subset (l : List RefTweet) (p : RefTweet)
    (hp : p ∈ jsSetDedup l) : p ∈ l :=
  jsSetDedup_go_subset l [] p hp

/-- `jsSetDedup` output has pairwise distinct references. -/
theorem jsSetDedup_refs_nodup (l : List RefTweet) :
    ((jsSetDedup l).map Prod.fst).Nodup :=
  jsSetDedup_go_refs_nodup l []

/-- Under a well-formed heap, `jsSetDedup` keeps every input pair. -/
theorem jsSetDedup_mem_of_wf (l : List RefTweet) (p : RefTweet) (hp : p ∈ l)
    (hwf : ∀ q ∈ l, q.1 = p.1 → q.2 = p.2) : p ∈ jsSetDedup l :=
  jsSetDedup_go_mem_of_wf l [] p hp (by simp) hwf

/-- C8 amended: the filtered batch is sorted ascending in the LEXICOGRAPHIC
order of the id strings (the `localeCompare` comparator — numeric ascending
only for equal-length ids); it is de-duplicated only by object REFERENCE
(`Set` uses reference identity for objects): no reference appears twice,
the output pairs come from the input minus self-authored tweets (exactly
those, when the heap is well formed), and two structurally equal tweets
under distinct references BOTH survive. -/
theorem fetchAndFilterTweets_spec (profileId : String) (cands : List RefTweet) :
    List.Sorted refTweetIdLE (fetchAndFilterTweets profileId cands)
    ∧ ((fetchAndFilterTweets profileId cands).map Prod.fst).Nodup
    ∧ (∀ p : RefTweet, p ∈ fetchAndFilterTweets profileId cands →
        p ∈ cands ∧ p.2.userId ≠ profileId)
    ∧ ((∀ q1 q2 : RefTweet, q1 ∈ cands → q2 ∈ cands → q1.1 = q2.1 →
          q1.2 = q2.2) →
        ∀ p : RefTweet, p ∈ fetchAndFilterTweets profileId cands ↔
          (p ∈ cands ∧ p.2.userId ≠ profileId))
    ∧ (∀ (r1 r2 : Nat) (t : Tweet), r1 ≠ r2 → t.userId ≠ profileId →
        (fetchAndFilterTweets profileId [(r1, t), (r2, t)]).length = 2) := by
  have hsubset : ∀ p : RefTweet, p ∈ fetchAndFilterTweets profileId cands →
      p ∈ cands ∧ p.2.userId ≠ profileId := by
    intro p hp
    unfold fetchAndFilterTweets at hp
    rw [List.mem_filter] at hp
    rcases hp with ⟨hmem, hpred⟩
    rw [(List.perm_insertionSort refTweetIdLE (jsSetDedup cands)).mem_iff] at hmem
    refine ⟨jsSetDedup_subset cands p hmem, ?_⟩
    simpa using hpred
  refine ⟨?_, ?_, hsubset, ?_, ?_⟩
  · exact List.Pairwise.filter _ (List.sorted_insertionSort refTweetIdLE _)
  · have h1 := jsSetDedup_refs_nodup cands
    have h2 : ((List.insertionSort refTweetIdLE (jsSetDedup cands)).map
        Prod.fst).Nodup :=
      (((List.perm_insertionSort refTweetIdLE (jsSetDedup cands)).map
        Prod.fst).nodup_iff).mpr h1
    exact h2.sublist ((List.filter_sublist _).map Prod.fst)
  · intro hwf p
    constructor
    · exact hsubset p
    · rintro ⟨hp, hpred⟩
      unfold fetchAndFilterTweets
      rw [List.mem_filter]
      constructor
      · rw [(List.perm_insertionSort refTweetIdLE (jsSetDedup cands)).mem_iff]
        exact jsSetDedup_mem_of_wf cands p hp (fun q hq => hwf q p hq hp)
      · simpa using hpred
  · intro r1 r2 t hne ht
    unfold fetchAndFilterTweets
    have hd : jsSetDedup [(r1, t), (r2, t)] = [(r1, t), (r2, t)] := by
      have hne2 : r2 ≠ r1 := Ne.symm hne
      simp [jsSetDedup, jsSetDedup.go, hne2]
    rw [hd]
    have hperm := List.perm_insertionSort refTweetIdLE [(r1, t), (r2, t)]
    have hall : (List.insertionSort refTweetIdLE [(r1, t), (r2, t)]).filter
        (fun p => p.2.userId ≠ profileId) =
        List.insertionSort refTweetIdLE [(r1, t), (r2, t)] := by
      apply List.filter_eq_self.mpr
      intro p hp
      have hp2 := hperm.mem_iff.mp hp
      have hpay : p.2 = t := by
        rcases List.mem_cons.mp hp2 with hp3 | hp3
        · rw [hp3]
        · have hp4 : p = (r2, t) := by simpa using hp3
          rw [hp4]
      simp [hpay, ht]
    rw [hall, hperm.length_eq]
    rfl

/-- A tweet whose id string is "9". -/
def tweetNine : Tweet :=
  { id := "9", userId := "u9", conversationId := "c9", inReplyToStatusId := none }

/-- A tweet whose id string is "10". -/
def tweetTen : Tweet :=
  { id := "10", userId := "u10", conversationId := "c10", inReplyToStatusId := none }

/-- Witness for the C8 amended theorem at a concrete input: the same tweet
payload under two distinct references survives the reference-identity dedup
twice — the program does not de-duplicate structurally equal tweets. -/
theorem fetchAndFilterTweets_spec_witness :
    (fetchAndFilterTweets "me" [(1, tweetNine), (2, tweetNine)]).length = 2 :=
  (fetchAndFilterTweets_spec "me"
    [(1, tweetNine), (2, tweetNine)]).2.2.2.2 1 2 tweetNine (by decide) (by decide)

/-- C8 counterexample: ids "9" and "10" come back in the order ["10", "9"]
(lexicographic by `localeCompare`), which is strictly descending in the
numeric id order used by the high-water mark — the batch is NOT sorted in
ascending order of tweet id. -/
theorem fetchAndFilterTweets_not_ascending_numeric :
    fetchAndFilterTweets "me" [(1, tweetNine), (2, tweetTen)] =
      [(2, tweetTen), (1, tweetNine)]
    ∧ idNum tweetNine.id < idNum tweetTen.id
    ∧ ¬ List.Pairwise (fun a b : RefTweet => idNum a.2.id ≤ idNum b.2.id)
        (fetchAndFilterTweets "me" [(1, tweetNine), (2, tweetTen)]) := by
  have h1 : fetchAndFilterTweets "me" [(1, tweetNine), (2, tweetTen)] =
      [(2, tweetTen), (1, tweetNine)] := by decide
  refine ⟨h1, by decide, ?_⟩
  rw [h1]
  decide

/-! ## C4 — `truncateToCompleteSentence` -/

/-- `jsTrim` never lengthens the text. -/
theorem jsTrim_length_le (cs : List Char) : (jsTrim cs).length ≤ cs.length := by
  have h1 : ((cs.dropWhile jsIsWs).reverse.dropWhile jsIsWs).length ≤
      (cs.dropWhile jsIsWs).reverse.length :=
    (List.dropWhile_sublist _).length_le
  have h2 : (cs.dropWhile jsIsWs).length ≤ cs.length :=
    (List.dropWhile_sublist _).length_le
  simp only [jsTrim, List.length_reverse]
  simp only [List.length_reverse] at h1
  omega

/-- A list holding one non-whitespace character does not trim to nothing. -/
theorem jsTrim_ne_nil {cs : List Char} {x : Char} (hx : x ∈ cs)
    (hw : jsIsWs x = false) : jsTrim cs ≠ [] := by
  intro hnil
  have h1 : (cs.dropWhile jsIsWs).reverse.dropWhile jsIsWs = [] := by
    have := congrArg List.reverse hnil
    simpa [jsTrim] using this
  have h2 : ∀ y ∈ (cs.dropWhile jsIsWs).reverse, jsIsWs y = true := by
    intro y hy
    exact List.dropWhile_eq_nil_iff.mp h1 y hy
  have h3 : ∀ y ∈ cs.dropWhile jsIsWs, jsIsWs y = true := by
    intro y hy
    exact h2 y (List.mem_reverse.mpr hy)
  have h4 : ∀ y ∈ cs, jsIsWs y = true := by
    intro y hy
    rw [← List.takeWhile_append_dropWhile (p := jsIsWs) (l := cs)] at hy
    rcases List.mem_append.mp hy with hy | hy
    · exact List.mem_takeWhile_imp hy
    · exact h3 y hy
  rw [h4 x hx] at hw
  simp at hw

/-- Case analysis on `jsLastIndexOf`: either no matching index at or below
`fromIdx` exists and the result is `-1`, or the result is a matching index at
or below `fromIdx`. -/
theorem jsLastIndexOf_cases (cs : List Char) (c : Char) (fromIdx : Nat) :
    (jsLastIndexOf cs c fromIdx = -1 ∧ ∀ i, i ≤ fromIdx → cs.get? i ≠ some c)
    ∨ ∃ i : Nat, jsLastIndexOf cs c fromIdx = (i : Int) ∧ i ≤ fromIdx
        ∧ cs.get? i = some c := by
  have hunf : jsLastIndexOf cs c fromIdx =
      (match (List.range (fromIdx + 1)).reverse.find? (fun i => cs.get? i = some c) with
       | none => -1
       | some i => (i : Int)) := rfl
  cases h : (List.range (fromIdx + 1)).reverse.find? (fun i => cs.get? i = some c) with
  | none =>
    left
    constructor
    · rw [hunf, h]
    · intro i hi hc
      have hall := List.find?_eq_none.mp h i
        (List.mem_reverse.mpr (List.mem_range.mpr (by omega)))
      rw [List.get?_eq_getElem?] at hc
      simp [hc] at hall
  | some i =>
    right
    refine ⟨i, by rw [hunf, h], ?_, ?_⟩
    · have hmem := List.mem_of_find?_eq_some h
      have := List.mem_range.mp (List.mem_reverse.mp hmem)
      omega
    · have := List.find?_some h
      simpa using this

/-- Length of `jsSlice0` under a nonnegative end index. -/
theorem jsSlice0_nonneg (cs : List Char) (e : Int) (he : 0 ≤ e) :
    jsSlice0 cs e = cs.take e.toNat := by
  simp [jsSlice0, not_lt.mpr he]

/-- `jsSlice0` with a negative end index keeps all but the trailing
`(-e)` elements. -/
theorem jsSlice0_neg (cs : List Char) (e : Int) (he : e < 0) :
    jsSlice0 cs e = cs.take ((cs.length : Int) + e).toNat := by
  simp [jsSlice0, he]

/-- C4 amended: text of length at most 280 is returned unchanged; longer
text is truncated preferring the last period at index ≤ 280 (result up to
281 characters), then the last space at index ≤ 280 with an ellipsis (result
up to 283 characters) — but when neither boundary exists the space branch
falls back to `slice(0, -1)`, all but the last character, so the result is
only bounded by the input length plus 2 — with an all-whitespace hard-cut
fallback of at most 280 characters. -/
theorem truncateToCompleteSentence_spec (text : List Char) :
    (text.length ≤ 280 → truncateToCompleteSentence text = text)
    ∧ (280 < text.length →
        (truncateToCompleteSentence text).length ≤ text.length + 2
        ∧ ((∃ i, i ≤ 280 ∧ text.get? i = some '.') →
            (truncateToCompleteSentence text).length ≤ 281)
        ∧ ((∀ i, i ≤ 280 → text.get? i ≠ some '.') →
            (∃ i, i ≤ 280 ∧ text.get? i = some ' ') →
            (truncateToCompleteSentence text).length ≤ 283)) := by
  have hM : MAX_TWEET_LENGTH = 280 := rfl
  constructor
  · intro h
    have h2 : text.length ≤ MAX_TWEET_LENGTH := by omega
    simp [truncateToCompleteSentence, h2]
  · intro hlen
    have hnotle : ¬ (text.length ≤ MAX_TWEET_LENGTH) := by omega
    have hresP : (jsTrim (jsSlice0 text
          (jsLastIndexOf text '.' MAX_TWEET_LENGTH + 1))).length > 0 →
        truncateToCompleteSentence text =
          jsTrim (jsSlice0 text (jsLastIndexOf text '.' MAX_TWEET_LENGTH + 1)) := by
      intro h
      simp only [truncateToCompleteSentence]
      rw [if_neg hnotle, if_pos h]
    have hresS : ¬ ((jsTrim (jsSlice0 text
          (jsLastIndexOf text '.' MAX_TWEET_LENGTH + 1))).length > 0) →
        (jsTrim (jsSlice0 text (jsLastIndexOf text ' ' MAX_TWEET_LENGTH))).length > 0 →
        truncateToCompleteSentence text =
          jsTrim (jsSlice0 text (jsLastIndexOf text ' ' MAX_TWEET_LENGTH)) ++
            "...".toList := by
      intro h1 h2
      simp only [truncateToCompleteSentence]
      rw [if_neg hnotle, if_neg h1, if_pos h2]
    have hresH : ¬ ((jsTrim (jsSlice0 text
          (jsLastIndexOf text '.' MAX_TWEET_LENGTH + 1))).length > 0) →
        ¬ ((jsTrim (jsSlice0 text (jsLastIndexOf text ' ' MAX_TWEET_LENGTH))).length > 0) →
        truncateToCompleteSentence text =
          jsTrim (text.take (MAX_TWEET_LENGTH - 3)) ++ "...".toList := by
      intro h1 h2
      simp only [truncateToCompleteSentence]
      rw [if_neg hnotle, if_neg h1, if_neg h2]
    have hsliceP_le : (jsSlice0 text
        (jsLastIndexOf text '.' MAX_TWEET_LENGTH + 1)).length ≤ 281 := by
      rcases jsLastIndexOf_cases text '.' MAX_TWEET_LENGTH with ⟨hneg, _⟩ |
        ⟨j, hj, hjle, _⟩
      · rw [hneg]
        rw [show (-1 : Int) + 1 = 0 from rfl]
        rw [jsSlice0_nonneg _ _ (le_refl 0)]
        simp
      · rw [hj]
        rw [jsSlice0_nonneg _ _ (by omega)]
        have htn : ((j : Int) + 1).toNat = j + 1 := by omega
        rw [htn, List.length_take]
        rw [hM] at hjle
        omega
    have hsliceP_len : (jsSlice0 text
        (jsLastIndexOf text '.' MAX_TWEET_LENGTH + 1)).length ≤ text.length := by
      unfold jsSlice0
      split <;> (rw [List.length_take]; omega)
    refine ⟨?_, ?_, ?_⟩
    · by_cases hP : (jsTrim (jsSlice0 text
          (jsLastIndexOf text '.' MAX_TWEET_LENGTH + 1))).length > 0
      · rw [hresP hP]
        have h1 := jsTrim_length_le (jsSlice0 text
          (jsLastIndexOf text '.' MAX_TWEET_LENGTH + 1))
        omega
      · by_cases hS : (jsTrim (jsSlice0 text
            (jsLastIndexOf text ' ' MAX_TWEET_LENGTH))).length > 0
        · rw [hresS hP hS, List.length_append]
          have h1 := jsTrim_length_le (jsSlice0 text
            (jsLastIndexOf text ' ' MAX_TWEET_LENGTH))
          have h3 : ("...".toList).length = 3 := rfl
          have h2 : (jsSlice0 text
              (jsLastIndexOf text ' ' MAX_TWEET_LENGTH)).length ≤ text.length - 1 := by
            rcases jsLastIndexOf_cases text ' ' MAX_TWEET_LENGTH with ⟨hneg, _⟩ |
              ⟨j, hj, hjle, _⟩
            · rw [hneg, jsSlice0_neg _ _ (by omega), List.length_take]
              omega
            · rw [hj, jsSlice0_nonneg _ _ (by omega), List.length_take]
              rw [hM] at hjle
              omega
          omega
        · rw [hresH hP hS, List.length_append]
          have h1 := jsTrim_length_le (text.take (MAX_TWEET_LENGTH - 3))
          have h2 : (text.take (MAX_TWEET_LENGTH - 3)).length ≤ 277 := by
            rw [List.length_take, hM]
            omega
          have h3 : ("...".toList).length = 3 := rfl
          omega
    · intro hex
      by_cases hP : (jsTrim (jsSlice0 text
          (jsLastIndexOf text '.' MAX_TWEET_LENGTH + 1))).length > 0
      · rw [hresP hP]
        have h1 := jsTrim_length_le (jsSlice0 text
          (jsLastIndexOf text '.' MAX_TWEET_LENGTH + 1))
        omega
      · exfalso
        rcases hex with ⟨i, hi, hci⟩
        rcases jsLastIndexOf_cases text '.' MAX_TWEET_LENGTH with ⟨_, hnone⟩ |
          ⟨j, hj, hjle, hcj⟩
        · exact hnone i (by omega) hci
        · apply hP
          have hsl : jsSlice0 text ((j : Int) + 1) = text.take (j + 1) := by
            rw [jsSlice0_nonneg _ _ (by omega)]
            have htn : ((j : Int) + 1).toNat = j + 1 := by omega
            rw [htn]
          have hg : (text.take (j + 1)).get? j = some '.' := by
            rw [List.get?_take (by omega)]
            exact hcj
          have hmem : '.' ∈ text.take (j + 1) := List.get?_mem hg
          have hne := jsTrim_ne_nil hmem (by decide)
          rw [hj, hsl]
          exact List.length_pos.mpr hne
    · intro hnoP hexS
      by_cases hP : (jsTrim (jsSlice0 text
          (jsLastIndexOf text '.' MAX_TWEET_LENGTH + 1))).length > 0
      · exfalso
        rcases jsLastIndexOf_cases text '.' MAX_TWEET_LENGTH with ⟨hneg, _⟩ |
          ⟨j, hj, hjle, hcj⟩
        · rw [hneg, show (-1 : Int) + 1 = 0 from rfl,
            jsSlice0_nonneg _ _ (le_refl 0)] at hP
          simp [jsTrim] at hP
        · exact hnoP j (by omega) hcj
      · by_cases hS : (jsTrim (jsSlice0 text
            (jsLastIndexOf text ' ' MAX_TWEET_LENGTH))).length > 0
        · rw [hresS hP hS, List.length_append]
          rcases jsLastIndexOf_cases text ' ' MAX_TWEET_LENGTH with ⟨_, hnone⟩ |
            ⟨j, hj, hjle, _⟩
          · exfalso
            rcases hexS with ⟨i, hi, hci⟩
            exact hnone i (by omega) hci
          · have h1 := jsTrim_length_le (jsSlice0 text
              (jsLastIndexOf text ' ' MAX_TWEET_LENGTH))
            have h2 : (jsSlice0 text
                (jsLastIndexOf text ' ' MAX_TWEET_LENGTH)).length ≤ 280 := by
              rw [hj, jsSlice0_nonneg _ _ (by omega), List.length_take]
              rw [hM] at hjle
              omega
            have h3 : ("...".toList).length = 3 := rfl
            omega
        · rw [hresH hP hS, List.length_append]
          have h1 := jsTrim_length_le (text.take (MAX_TWEET_LENGTH - 3))
          have h2 : (text.take (MAX_TWEET_LENGTH - 3)).length ≤ 277 := by
            rw [List.length_take, hM]
            omega
          have h3 : ("...".toList).length = 3 := rfl
          omega

/-- A 301-character text: 279 letters, one space, 21 more letters — no
period anywhere. -/
def exLongText : List Char :=
  List.replicate 279 'a' ++ ' ' :: List.replicate 21 'a'

set_option maxRecDepth 20000 in
/-- C4 counterexample: on a 301-character input the word-boundary branch
produces 279 letters plus an ellipsis — 282 characters, exceeding the
claimed hard bound of 280. -/
theorem truncateToCompleteSentence_exceeds_limit :
    exLongText.length = 301
    ∧ (truncateToCompleteSentence exLongText).length = 282
    ∧ ¬ ((truncateToCompleteSentence exLongText).length ≤ 280) := by
  refine ⟨by decide, by decide, by decide⟩

/-- Witness for the C4 amended theorem: short text is returned unchanged. -/
theorem truncateToCompleteSentence_spec_witness :
    truncateToCompleteSentence "ok".toList = "ok".toList :=
  (truncateToCompleteSentence_spec "ok".toList).1 (by decide)
